import Mathlib

/-!
Verification of the jtag-taps cable backend.

Shallow embedding of `src/cable/jtagkey.rs` (the `Cable` implementation for
JtagKey/MPSSE adapters) and the factory in `src/cable.rs`.

Hardware commands built through `MpsseCmdBuilder` are modelled by the
inductive type `Cmd`; a builder accumulating commands and sending them at
the end becomes a `List Cmd`.  A Rust panic (failed `assert!`, integer
underflow, out-of-range index) occurring before the final `send` means no
command reaches the hardware; such runs are modelled as `none`.
Bytes (`u8`) are modelled as `Nat` (values produced by the hardware are
reduced `% 256`).
-/

namespace JtagTaps

/-- One MPSSE command appended to the command buffer.

* `clockDataOut bytes` — `clock_data_out(ClockDataOut::LsbNeg, bytes)`:
  clocks each byte out on TDI, LSB first, full bytes.
* `clockBitsOut byte n` — `clock_bits_out(ClockBitsOut::LsbNeg, byte, n)`:
  clocks the `n` low-order bits of `byte` out on TDI, LSB first.
* `clockDataIn outBytes` — `clock_data(ClockData::LsbPosIn, outBytes)`:
  clocks `outBytes.length` bytes, capturing TDO, with `outBytes` as the
  outgoing TDI pattern.
* `clockBitsIn outByte n` — `clock_bits(ClockBits::LsbPosIn, outByte, n)`:
  clocks `n` bits capturing TDO, with `outByte` as the outgoing pattern.
* `clockTmsOut pat tdi n` — `clock_tms_out(ClockTMSOut::NegEdge, pat, tdi, n)`:
  clocks the `n` low-order bits of `pat` on the TMS line while TDI is held
  at `tdi`. -/
inductive Cmd where
  | clockDataOut (bytes : List Nat)
  | clockBitsOut (byte : Nat) (n : Nat)
  | clockDataIn (outBytes : List Nat)
  | clockBitsIn (outByte : Nat) (n : Nat)
  | clockTmsOut (pat : Nat) (tdi : Bool) (n : Nat)
  deriving DecidableEq, Repr

/-- The `n` low-order bits of `b`, least-significant first. -/
def lowBits (b : Nat) (n : Nat) : List Bool :=
  (List.range n).map b.testBit

/-- All eight bits of a byte, least-significant first. -/
def bitsOfByte (b : Nat) : List Bool :=
  lowBits b 8

/-- The sequence of TMS values a command clocks (empty for data commands). -/
def cmdTmsBits : Cmd → List Bool
  | .clockTmsOut pat _ n => lowBits pat n
  | _ => []

/-- The sequence of TDI data bits a data-output command clocks
(empty for capture and TMS commands). -/
def dataEdges : Cmd → List Bool
  | .clockDataOut bytes => bytes.flatMap bitsOfByte
  | .clockBitsOut byte n => lowBits byte n
  | _ => []

/-!
Embedding of `change_mode` (src/cable/jtagkey.rs lines 63 to 82).

The Rust loop accumulates TMS values into `buf` (bit `count` set when the
element is nonzero), flushing a `clock_tms_out` chunk each time `count`
reaches 7 and once more after the loop with whatever remains.
-/

/-- Loop body of `change_mode`: remaining input, current `count` and `buf`. -/
def changeModeAux (tdo : Bool) : List Nat → Nat → Nat → List Cmd
  | [], count, buf => [Cmd.clockTmsOut buf tdo count]
  | x :: rest, count, buf =>
    let buf' := if x ≠ 0 then buf ||| (1 <<< count) else buf
    if count + 1 = 7 then
      Cmd.clockTmsOut buf' tdo 7 :: changeModeAux tdo rest 0 0
    else
      changeModeAux tdo rest (count + 1) buf'

/-- Commands sent by `JtagKey::change_mode(tms, tdo)`. -/
def change_mode (tms : List Nat) (tdo : Bool) : List Cmd :=
  changeModeAux tdo tms 0 0

/-- Reference model, written from the spec's words for the chunking claim:
an unchunked single-shot encoding clocks one TMS value per element of
`tms`, in order, zero meaning logic-low and any nonzero value logic-high. -/
def refSingleShotTmsBits (tms : List Nat) : List Bool :=
  tms.map (fun x => x != 0)

/-!
Embedding of `write_data` (src/cable/jtagkey.rs lines 106 to 130).

Panic sites reached before the final `send`, in program order:
`assert!(bits <= 8)`; the `u8` decrement `bits -= 1` (underflow when
`bits = 0`); the index `data[data.len()-1]` (out of range when `data` is
empty).  Each is modelled as `none`.
-/

/-- Run of `JtagKey::write_data(data, bits, pause_after)`: `some` of the
commands sent, or `none` when the call panics before sending. -/
def write_data (data : List Nat) (bits : Nat) (pause_after : Bool) :
    Option (List Cmd) :=
  if ¬ bits ≤ 8 then none
  else if bits = 0 then none
  else if data = [] then none
  else
    let bits' := bits - 1
    let pre :=
      (if data.length > 1 then [Cmd.clockDataOut data.dropLast] else [])
        ++ (if bits' > 1 then [Cmd.clockBitsOut (data.getLastD 0) bits'] else [])
    let last_bit := (data.getLastD 0).testBit bits'
    if pause_after then
      some (pre ++ [Cmd.clockTmsOut 1 last_bit 2])
    else
      some (pre ++ [Cmd.clockTmsOut 0 last_bit 1])

/-!
Embedding of `read_data` (src/cable/jtagkey.rs lines 84 to 104).

`xfer` fills the response buffer with bytes from the hardware; the
hardware's reply is modelled by `hw : Nat → Nat` giving the byte at each
position (reduced `% 256` since the wire carries bytes).  The read path
has no panic site, so the result is always `some`.
-/

/-- Run of `JtagKey::read_data(bits)`: the commands sent and the returned
buffer, given the hardware's response bytes `hw`. -/
def read_data (n : Nat) (hw : Nat → Nat) : Option (List Cmd × List Nat) :=
  let bytes := n / 8
  let bits := if bytes > 0 then n - bytes * 8 else n
  let cmds :=
    (if bytes > 0 then [Cmd.clockDataIn (List.replicate bytes 0xff)] else [])
      ++ (if bits > 0 then [Cmd.clockBitsIn 0xff bits] else [])
  let total := bytes + (if bits > 0 then 1 else 0)
  let raw := (List.range total).map fun i => hw i % 256
  if bits > 0 then
    some (cmds, raw.dropLast ++ [(hw (total - 1) % 256) >>> (8 - bits)])
  else
    some (cmds, raw)

/-!
Embedding of the factory (src/cable.rs lines 53 to 61).

`new_from_string` only selects the backend; the adapter constructors
themselves talk to hardware and are out of scope, so the `Ok` payload is
modelled by a tag naming the selected adapter family.
-/

/-- The adapter family selected by the factory. -/
inductive CableKind where
  | jtagkey
  | ef3
  | usbblaster
  | jlink
  deriving DecidableEq, Repr

/-- Dispatch performed by `cable::new_from_string(name, clock)`. -/
def new_from_string (name : String) : Except String CableKind :=
  if name = "jtagkey" then .ok .jtagkey
  else if name = "ef3" then .ok .ef3
  else if name = "usbblaster" then .ok .usbblaster
  else if name = "jlink" then .ok .jlink
  else .error ("unknown cable type: " ++ name)

/-!
Helper lemmas shared by the claim theorems.
-/

/-- Closed form of `read_data`: the commands issued and the returned
buffer, with the remainder handling expressed through `n / 8` and
`n % 8`. -/
theorem read_data_shape (n : Nat) (hw : Nat → Nat) :
    read_data n hw = some (
      (if n / 8 > 0 then [Cmd.clockDataIn (List.replicate (n / 8) 0xff)] else [])
        ++ (if n % 8 > 0 then [Cmd.clockBitsIn 0xff (n % 8)] else []),
      if n % 8 > 0 then
        ((List.range (n / 8 + 1)).map fun i => hw i % 256).dropLast
          ++ [(hw (n / 8) % 256) >>> (8 - n % 8)]
      else (List.range (n / 8)).map fun i => hw i % 256) := by
  simp only [read_data]
  have hbits : (if n / 8 > 0 then n - n / 8 * 8 else n) = n % 8 := by
    split_ifs <;> omega
  rw [hbits]
  by_cases hr : n % 8 > 0 <;> simp [hr]

/-- Unfolding the low bits of a byte one position at a time. -/
theorem lowBits_succ (b n : Nat) :
    lowBits b (n + 1) = lowBits b n ++ [b.testBit n] := by
  simp [lowBits, List.range_succ]

/-- Two numbers agreeing on their low `n` bits have the same `lowBits`. -/
theorem lowBits_congr (a b n : Nat) (h : ∀ i, i < n → a.testBit i = b.testBit i) :
    lowBits a n = lowBits b n := by
  unfold lowBits
  exact List.map_congr_left fun i hi => h i (List.mem_range.mp hi)

/-- Invariant of the `change_mode` loop: with `count` bits already
accumulated in `buf`, the TMS values clocked by the remaining commands are
the accumulated bits followed by the (nonzero-to-high) image of the
remaining input. -/
theorem changeModeAux_tmsBits (tdo : Bool) (tms : List Nat) :
    ∀ count buf, count < 7 → buf < 2 ^ count →
    (changeModeAux tdo tms count buf).flatMap cmdTmsBits =
      lowBits buf count ++ tms.map (fun x => x != 0) := by
  induction tms with
  | nil =>
    intro count buf _ _
    simp [changeModeAux, cmdTmsBits]
  | cons x rest ih =>
    intro count buf hcount hbuf
    have hstep : (if x ≠ 0 then buf ||| 1 <<< count else buf) < 2 ^ (count + 1) ∧
        lowBits (if x ≠ 0 then buf ||| 1 <<< count else buf) (count + 1) =
          lowBits buf count ++ [x != 0] := by
      split_ifs with hx
      · rw [Nat.one_shiftLeft]
        constructor
        · exact Nat.or_lt_two_pow
            (lt_trans hbuf (Nat.pow_lt_pow_right (by norm_num) (by omega)))
            (Nat.pow_lt_pow_right (by norm_num) (by omega))
        · rw [lowBits_succ]
          have hlow : lowBits (buf ||| 2 ^ count) count = lowBits buf count := by
            apply lowBits_congr
            intro i hi
            rw [Nat.testBit_or, Nat.testBit_two_pow_of_ne (by omega : count ≠ i)]
            simp
          rw [hlow, Nat.testBit_or, Nat.testBit_two_pow_self,
            Nat.testBit_lt_two_pow hbuf]
          simp [hx]
      · constructor
        · exact lt_trans hbuf (Nat.pow_lt_pow_right (by norm_num) (by omega))
        · rw [lowBits_succ, Nat.testBit_lt_two_pow hbuf]
          have hx0 : x = 0 := by omega
          simp [hx0]
    simp only [changeModeAux]
    by_cases h7 : count + 1 = 7
    · rw [if_pos h7]
      simp only [List.flatMap_cons, cmdTmsBits]
      rw [ih 0 0 (by norm_num) (by norm_num)]
      rw [← h7, hstep.2]
      simp [lowBits, List.append_assoc]
    · rw [if_neg h7]
      rw [ih (count + 1) _ (by omega) hstep.1, hstep.2]
      simp [List.append_assoc]

/-- Every command the `change_mode` loop emits is a TMS command holding the
given TDI value and clocking at most 7 bits. -/
theorem changeModeAux_shape (tdo : Bool) (tms : List Nat) :
    ∀ count buf, count < 7 →
    ∀ c ∈ changeModeAux tdo tms count buf,
      ∃ pat k, c = Cmd.clockTmsOut pat tdo k ∧ k ≤ 7 := by
  induction tms with
  | nil =>
    intro count buf hcount c hc
    simp [changeModeAux] at hc
    exact ⟨buf, count, hc, Nat.le_of_lt hcount⟩
  | cons x rest ih =>
    intro count buf hcount c hc
    simp only [changeModeAux] at hc
    set buf' := if x ≠ 0 then buf ||| 1 <<< count else buf with hbuf'
    by_cases h7 : count + 1 = 7
    · rw [if_pos h7] at hc
      rcases List.mem_cons.mp hc with hc | hc
      · exact ⟨_, 7, hc, le_refl 7⟩
      · exact ih 0 0 (by norm_num) c hc
    · rw [if_neg h7] at hc
      exact ih (count + 1) buf' (by omega : count + 1 < 7) c hc

/-!
Claim theorems.
-/

/-- Claim C1: for `write_data(data, bits, pause_after)` with `data`
non-empty and `1 ≤ bits ≤ 8`, bit `bits - 1` of the final byte is never
emitted by a data-clocking command — the commands before the final one
output only the earlier bytes or fewer than `bits` low bits of the final
byte — and it is delivered exactly once, as the held TDI value of the
final TMS command (one step without pausing, two steps when pausing). -/
theorem write_data_last_bit_via_tms (data : List Nat) (bits : Nat)
    (pause_after : Bool) (hne : data ≠ []) (h1 : 1 ≤ bits) (h8 : bits ≤ 8) :
    ∃ pre,
      write_data data bits pause_after = some (pre ++
        [Cmd.clockTmsOut (if pause_after then 1 else 0)
          ((data.getLastD 0).testBit (bits - 1))
          (if pause_after then 2 else 1)]) ∧
      ∀ c ∈ pre, c = Cmd.clockDataOut data.dropLast ∨
        ∃ n, n < bits ∧ c = Cmd.clockBitsOut (data.getLastD 0) n := by
  unfold write_data
  rw [if_neg (by omega : ¬ ¬ bits ≤ 8), if_neg (by omega : ¬ bits = 0),
    if_neg hne]
  refine ⟨(if 1 < data.length then [Cmd.clockDataOut data.dropLast] else [])
      ++ (if 1 < bits - 1 then [Cmd.clockBitsOut (data.getLastD 0) (bits - 1)] else []),
    ?_, ?_⟩
  · cases pause_after <;> simp
  · intro c hc
    simp only [List.mem_append] at hc
    rcases hc with hc | hc
    · split_ifs at hc <;> simp_all
    · split_ifs at hc <;> simp_all
      omega

/-- Witness for C1: `write_data([0xA5], 8, false)` holds bit 7 of `0xA5`
(which is `true`) on TDI during the one-step TMS command. -/
theorem write_data_last_bit_via_tms_witness :
    (([0xA5] : List Nat) ≠ [] ∧ (1 : Nat) ≤ 8 ∧ (8 : Nat) ≤ 8) ∧
    (∃ pre,
      write_data [0xA5] 8 false = some (pre ++
        [Cmd.clockTmsOut 0 true 1]) ∧
      ∀ c ∈ pre, c = Cmd.clockDataOut ([0xA5] : List Nat).dropLast ∨
        ∃ n, n < 8 ∧ c = Cmd.clockBitsOut (([0xA5] : List Nat).getLastD 0) n) :=
  ⟨⟨by simp, by norm_num, by norm_num⟩,
    write_data_last_bit_via_tms [0xA5] 8 false (by simp) (by norm_num) (by norm_num)⟩

/-- Counterexample to claim C2 as stated: at `write_data([0x01], 1, false)`
the final (only) TMS command clocks the single TMS bit 0, not the single
bit 1 that the claim asserts for the non-pausing case — so starting from a
Shift state the TAP stays in Shift rather than moving to Exit1. -/
theorem write_data_unpaused_tms_zero :
    write_data [0x01] 1 false = some [Cmd.clockTmsOut 0 true 1] ∧
    cmdTmsBits (Cmd.clockTmsOut 0 true 1) = [false] ∧
    ([false] : List Bool) ≠ [true] := by
  refine ⟨by decide, by decide, by decide⟩

/-- Amended claim C2: for `write_data` from a Shift state with valid
arguments, the final TMS command holds the last data bit on TDI and clocks
the TMS bits `1, 0` when `pause_after` is true (Exit1 then Pause, ending in
Pause), but the single TMS bit `0` when `pause_after` is false (one more
shift edge; the TAP remains in Shift, matching the `Cable` trait's
documentation that the state does not change unless pausing). -/
theorem write_data_final_tms_pattern (data : List Nat) (bits : Nat)
    (pause_after : Bool) (hne : data ≠ []) (h1 : 1 ≤ bits) (h8 : bits ≤ 8) :
    ∃ pre,
      write_data data bits pause_after = some (pre ++
        [Cmd.clockTmsOut (if pause_after then 1 else 0)
          ((data.getLastD 0).testBit (bits - 1))
          (if pause_after then 2 else 1)]) ∧
      cmdTmsBits (Cmd.clockTmsOut (if pause_after then 1 else 0)
          ((data.getLastD 0).testBit (bits - 1))
          (if pause_after then 2 else 1)) =
        (if pause_after then [true, false] else [false]) := by
  unfold write_data
  rw [if_neg (by omega : ¬ ¬ bits ≤ 8), if_neg (by omega : ¬ bits = 0),
    if_neg hne]
  refine ⟨(if 1 < data.length then [Cmd.clockDataOut data.dropLast] else [])
      ++ (if 1 < bits - 1 then [Cmd.clockBitsOut (data.getLastD 0) (bits - 1)] else []),
    ?_, ?_⟩
  · cases pause_after <;> simp
  · cases pause_after <;> simp only [cmdTmsBits] <;> decide

/-- Witness for the amended C2: `write_data([0xA5], 8, true)` ends with a
two-step TMS command clocking `1, 0`. -/
theorem write_data_final_tms_pattern_witness :
    (([0xA5] : List Nat) ≠ [] ∧ (1 : Nat) ≤ 8 ∧ (8 : Nat) ≤ 8) ∧
    (∃ pre,
      write_data [0xA5] 8 true = some (pre ++ [Cmd.clockTmsOut 1 true 2]) ∧
      cmdTmsBits (Cmd.clockTmsOut 1 true 2) = [true, false]) :=
  ⟨⟨by simp, by norm_num, by norm_num⟩,
    write_data_final_tms_pattern [0xA5] 8 true (by simp) (by norm_num) (by norm_num)⟩

/-- Claim C3 failing input: `write_data([0x01], 2, false)`.  The guard
`bits > 1` (evaluated after the decrement) skips the bit-output command
that should clock the remaining `bits - 1 = 1` low-order bit, so the only
command sent is the TMS step holding bit 1; bit 0 of the final byte (value
1 here) is never clocked, giving 1 data-carrying edge instead of 2. -/
theorem write_data_two_bits_drops_low_bit :
    write_data [0x01] 2 false = some [Cmd.clockTmsOut 0 false 1] ∧
    (∀ c ∈ [Cmd.clockTmsOut 0 false 1], dataEdges c = []) ∧
    (8 * (([0x01] : List Nat).length - 1) + 2 = 2) := by
  refine ⟨by decide, by decide, by decide⟩

/-- Claim C4: `change_mode(tms, tdo)` emits only TMS commands of at most 7
bits each, all holding the same TDI value `tdo`, and their bit patterns
concatenated LSB-first equal the single-shot reference encoding of the
input (nonzero elements to logic-high, zero to logic-low), so the chunked
encoding drives the same TAP state path as the unchunked one. -/
theorem change_mode_chunking (tms : List Nat) (tdo : Bool) :
    ((change_mode tms tdo).flatMap cmdTmsBits = refSingleShotTmsBits tms) ∧
    (∀ c ∈ change_mode tms tdo,
      ∃ pat k, c = Cmd.clockTmsOut pat tdo k ∧ k ≤ 7) := by
  constructor
  · rw [change_mode, changeModeAux_tmsBits tdo tms 0 0 (by norm_num) (by norm_num)]
    simp [lowBits, refSingleShotTmsBits]
  · exact changeModeAux_shape tdo tms 0 0 (by norm_num)

/-- Claim C5: for `n > 0`, `read_data(n)` returns exactly `⌈n/8⌉` bytes;
when `n` is not a multiple of 8 the final byte is the captured remainder
byte shifted right by `8 - n % 8`, so it is below `2 ^ (n % 8)` and its
high-order bits from position `n % 8` upward are all zero. -/
theorem read_data_length_alignment (n : Nat) (hw : Nat → Nat) (h : 0 < n) :
    ∃ cmds buf, read_data n hw = some (cmds, buf) ∧
      buf.length = (n + 7) / 8 ∧
      (n % 8 ≠ 0 →
        buf.getLast? = some ((hw ((n + 7) / 8 - 1) % 256) >>> (8 - n % 8)) ∧
        ∀ b, buf.getLast? = some b →
          b < 2 ^ (n % 8) ∧ ∀ j, n % 8 ≤ j → b.testBit j = false) := by
  have hmod : n % 8 < 8 := Nat.mod_lt _ (by norm_num)
  have hsh := read_data_shape n hw
  by_cases hr : n % 8 = 0
  · simp only [if_neg (by omega : ¬ n % 8 > 0)] at hsh
    refine ⟨_, _, hsh, ?_, by simp [hr]⟩
    simp
    omega
  · simp only [if_pos (by omega : n % 8 > 0)] at hsh
    have hbound : (hw (n / 8) % 256) >>> (8 - n % 8) < 2 ^ (n % 8) := by
      rw [Nat.shiftRight_eq_div_pow]
      rw [Nat.div_lt_iff_lt_mul (Nat.pos_pow_of_pos _ (by norm_num))]
      calc hw (n / 8) % 256 < 256 := Nat.mod_lt _ (by norm_num)
        _ ≤ 2 ^ (n % 8) * 2 ^ (8 - n % 8) := by
            rw [← pow_add]
            have hsum : n % 8 + (8 - n % 8) = 8 := by omega
            rw [hsum]
            norm_num
    refine ⟨_, _, hsh, ?_, fun _ => ⟨?_, ?_⟩⟩
    · simp
      omega
    · rw [List.getLast?_concat]
      have hidx : (n + 7) / 8 - 1 = n / 8 := by omega
      rw [hidx]
    · intro b hb
      rw [List.getLast?_concat] at hb
      cases hb
      refine ⟨hbound, fun j hj => ?_⟩
      apply Nat.testBit_lt_two_pow
      calc (hw (n / 8) % 256) >>> (8 - n % 8) < 2 ^ (n % 8) := hbound
        _ ≤ 2 ^ j := Nat.pow_le_pow_right (by norm_num) hj

/-- Witness for C5: `read_data(13)` against a hardware reply of all `0xAB`
bytes returns 2 bytes whose last byte is right-aligned with zero high
bits. -/
theorem read_data_length_alignment_witness :
    (0 : Nat) < 13 ∧
    (∃ cmds buf, read_data 13 (fun _ => 0xAB) = some (cmds, buf) ∧
      buf.length = (13 + 7) / 8 ∧
      (13 % 8 ≠ 0 →
        buf.getLast? = some ((0xAB % 256) >>> (8 - 13 % 8)) ∧
        ∀ b, buf.getLast? = some b →
          b < 2 ^ (13 % 8) ∧ ∀ j, 13 % 8 ≤ j → b.testBit j = false)) :=
  ⟨by norm_num, read_data_length_alignment 13 (fun _ => 0xAB) (by norm_num)⟩

/-- Claim C6: every command issued by `read_data(n)` (for `n > 0`) is a
capture command whose outgoing TDI pattern is all-ones (`0xff`), and no
TMS command is issued — the concatenated TMS activity of the call is
empty, so the TAP state is unchanged and it remains in the Shift state it
started in. -/
theorem read_data_capture_only (n : Nat) (hw : Nat → Nat) (h : 0 < n) :
    ∃ cmds buf, read_data n hw = some (cmds, buf) ∧
      (∀ c ∈ cmds,
        (∃ bs, c = Cmd.clockDataIn bs ∧ ∀ b ∈ bs, b = 0xff) ∨
        ∃ k, 0 < k ∧ c = Cmd.clockBitsIn 0xff k) ∧
      cmds.flatMap cmdTmsBits = [] := by
  refine ⟨_, _, read_data_shape n hw, ?_, ?_⟩
  · intro c hc
    simp only [List.mem_append] at hc
    rcases hc with hc | hc
    · split_ifs at hc <;> simp_all
    · split_ifs at hc with hk <;> simp_all
  · split_ifs <;> simp [cmdTmsBits]

/-- Witness for C6: `read_data(13)` issues one full-byte capture and one
5-bit capture, both clocking out `0xff`, and no TMS command. -/
theorem read_data_capture_only_witness :
    (0 : Nat) < 13 ∧
    (∃ cmds buf, read_data 13 (fun _ => 0) = some (cmds, buf) ∧
      (∀ c ∈ cmds,
        (∃ bs, c = Cmd.clockDataIn bs ∧ ∀ b ∈ bs, b = 0xff) ∨
        ∃ k, 0 < k ∧ c = Cmd.clockBitsIn 0xff k) ∧
      cmds.flatMap cmdTmsBits = []) :=
  ⟨by norm_num, read_data_capture_only 13 (fun _ => 0) (by norm_num)⟩

/-- Counterexample to claim C7 as stated: `read_data(0)` is accepted
silently — it issues no commands and returns a normal (non-panicking)
result, the empty buffer — rather than being rejected by an assertion or
error. -/
theorem read_data_zero_bits_normal_result :
    read_data 0 (fun _ => 0) = some ([], []) ∧
    (some (([] : List Cmd), ([] : List Nat)) ≠ none) := by
  refine ⟨by decide, by simp⟩

/-- Amended claim C7: a zero bit count is rejected loudly only by
`write_data`, whose `u8` decrement `bits -= 1` underflows and panics
before any command is sent; `read_data(0)` is accepted silently, sends no
command, and returns an empty buffer normally. -/
theorem zero_bits_split_behavior :
    (∀ data pause_after, write_data data 0 pause_after = none) ∧
    (∀ hw, read_data 0 hw = some ([], [])) := by
  constructor
  · intro data pause_after
    unfold write_data
    split_ifs <;> simp_all
  · intro hw
    unfold read_data
    simp

/-- Claim C8: the factory returns `Ok` exactly for the four recognized
adapter names, and for every other name returns a lookup error whose
message is the word-for-word template with the unrecognized name appended;
it is a total dispatch that never panics. -/
theorem new_from_string_dispatch (name : String) :
    (new_from_string name = .ok .jtagkey ↔ name = "jtagkey") ∧
    (new_from_string name = .ok .ef3 ↔ name = "ef3") ∧
    (new_from_string name = .ok .usbblaster ↔ name = "usbblaster") ∧
    (new_from_string name = .ok .jlink ↔ name = "jlink") ∧
    (name ≠ "jtagkey" → name ≠ "ef3" → name ≠ "usbblaster" → name ≠ "jlink" →
      new_from_string name = .error ("unknown cable type: " ++ name)) := by
  unfold new_from_string
  split_ifs with h1 h2 h3 h4 <;> simp_all

/-- Witness for C8: the recognized name "jtagkey" constructs the JtagKey
family and the unknown name "foo" produces the lookup error naming it. -/
theorem new_from_string_dispatch_witness :
    new_from_string "jtagkey" = .ok .jtagkey ∧
    new_from_string "foo" = .error ("unknown cable type: " ++ "foo") :=
  ⟨((new_from_string_dispatch "jtagkey").1).mpr rfl,
    (new_from_string_dispatch "foo").2.2.2.2 (by decide) (by decide)
      (by decide) (by decide)⟩

/-- Claim C9: for every `bits > 8`, `write_data` fails its assertion
`assert!(bits <= 8)` before building or sending any hardware command; the
run produces no command list at all, so the target receives no partial
clocking. -/
theorem write_data_bits_gt8_no_commands (data : List Nat) (bits : Nat)
    (pause_after : Bool) (h : 8 < bits) :
    write_data data bits pause_after = none := by
  unfold write_data
  rw [if_pos (by omega : ¬ bits ≤ 8)]

/-- Witness for C9: `write_data([0x00], 9, false)` sends nothing. -/
theorem write_data_bits_gt8_no_commands_witness :
    (8 : Nat) < 9 ∧ write_data [0x00] 9 false = none :=
  ⟨by norm_num, write_data_bits_gt8_no_commands [0x00] 9 false (by norm_num)⟩

/-- Claim C10: `write_data` on an empty data slice panics (the index
`data[data.len()-1]` is out of range) before the accumulated command
buffer is ever sent, for every bit count and pause flag; the violated
non-empty precondition fails loudly instead of producing a result. -/
theorem write_data_empty_data_no_commands (bits : Nat) (pause_after : Bool) :
    write_data [] bits pause_after = none := by
  unfold write_data
  split_ifs <;> simp_all

end JtagTaps
